import Mathlib

/-!
Verification of the skylark-rs front end: a shallow embedding of the AST
model (src/src/ast.rs) and of the integer-literal and identifier scanners
exercised by the crate tests (src/src/lib.rs).  The lalrpop grammar file
that generates `skylark::IntParser` and `skylark::IdentifierParser` is not
part of the source tree; those scanners are therefore modelled from the
specification (spec.md, section 4.1) and checked against the concrete
expectations recorded in the crate tests.
-/

namespace Skylark

/-- AST node from src/src/ast.rs: `pub struct Statement;` (field-less placeholder). -/
structure Statement where

/-- AST node from src/src/ast.rs: `pub struct SimpleStmt;` (field-less placeholder). -/
structure SimpleStmt where

/-- AST node from src/src/ast.rs:
`pub enum Test { Nil, IfExpr { cond: Box<Test>, alt: Box<Test> } }`.
Note the `IfExpr` variant has exactly two fields, `cond` and `alt`, both of
type `Test`; there is no field for the antecedent expression of a ternary. -/
inductive Test : Type where
| Nil : Test
| IfExpr (cond : Test) (alt : Test) : Test

/-- AST node from src/src/ast.rs: `pub struct Slice;` — a field-less unit
struct; it stores none of the `a[start:stop:step]` bounds. -/
structure Slice where

/-- AST node from src/src/ast.rs: `pub struct Call;` — a field-less unit
struct; it stores no argument list. -/
structure Call where

/-- Expression AST from src/src/ast.rs: `pub enum Expr` with 18 binary
variants, 2 unary variants, postfix forms and operand forms.  `Box` - es are
elided (Lean inductives own their children directly); `i32` is modelled as
`Int`; `Vec<u8>` as `List (Fin 256)`. -/
inductive Expr : Type where
| Or (a b : Expr) : Expr
| And (a b : Expr) : Expr
| Eq (a b : Expr) : Expr
| Ne (a b : Expr) : Expr
| Lt (a b : Expr) : Expr
| Gt (a b : Expr) : Expr
| Le (a b : Expr) : Expr
| Ge (a b : Expr) : Expr
| In (a b : Expr) : Expr
| NotIn (a b : Expr) : Expr
| BitOr (a b : Expr) : Expr
| BitAnd (a b : Expr) : Expr
| Sub (a b : Expr) : Expr
| Add (a b : Expr) : Expr
| Mul (a b : Expr) : Expr
| Mod (a b : Expr) : Expr
| Div (a b : Expr) : Expr
| DivFloor (a b : Expr) : Expr
| Neg (a : Expr) : Expr
| Not (a : Expr) : Expr
| Dot (a : Expr) (attr : String) : Expr
| Slice (a : Expr) (s : Skylark.Slice) : Expr
| Call (a : Expr) (c : Skylark.Call) : Expr
| Identifier (name : String) : Expr
| Int (n : Int) : Expr
| String (bytes : List (Fin 256)) : Expr
| Tuple (elems : List Expr) : Expr
| ListExpr (elems : List Expr) : Expr
| ListComp : Expr
| DictExpr : Expr
| DictComp : Expr

/-- AST node from src/src/ast.rs: `pub struct Tuple(pub Vec<Expr>);`. -/
structure Tuple where
elems : List Expr

/-- AST node from src/src/ast.rs: `pub enum Suite`. -/
inductive Suite : Type where
| Statements (stmts : List Statement) : Suite
| SimpleStmt (stmt : Skylark.SimpleStmt) : Suite

/-- Immediate child nodes of a `Test` value, as stored by its constructor:
`Nil` has none, `IfExpr` stores exactly its `cond` and `alt` fields. -/
def Test.components : Test → List Test
| Test.Nil => []
| Test.IfExpr c a => [c, a]

/-- Number of nodes of a `Test` tree. -/
def Test.size : Test → Nat
| Test.Nil => 1
| Test.IfExpr c a => Test.size c + Test.size a + 1

/-- Plain binary trees, used to show `Test` carries binary-tree structure
and nothing else (in particular no `Expr` payload anywhere). -/
inductive BinTree : Type where
| leaf : BinTree
| node (l r : BinTree) : BinTree

/-- Forgetful map from `Test` to plain binary trees. -/
def Test.toTree : Test → BinTree
| Test.Nil => BinTree.leaf
| Test.IfExpr c a => BinTree.node (Test.toTree c) (Test.toTree a)

/-- Inverse map: rebuild a `Test` from a plain binary tree. -/
def Test.ofTree : BinTree → Test
| BinTree.leaf => Test.Nil
| BinTree.node l r => Test.IfExpr (Test.ofTree l) (Test.ofTree r)

/-- Modelled from the spec: the grammar action that composes the three
optional bounds of `a[start:stop:step]` into a `Slice` node.  The grammar
file itself is missing from the source tree; since the source type `Slice`
(src/src/ast.rs) has no fields, any such composition necessarily produces
the unique field-less value and discards the bounds. -/
def mkSlice (_start _stop _step : Option Expr) : Slice := ⟨⟩

/-- Modelled from the spec: the grammar action that composes a call
argument list into a `Call` node.  The grammar file itself is missing from
the source tree; since the source type `Call` (src/src/ast.rs) has no
fields, any such composition necessarily produces the unique field-less
value and discards the arguments. -/
def mkCall (_args : List Expr) : Call := ⟨⟩

/-- Error kinds of integer-literal scanning, following spec section 7
(NumberFormatError): leading-zero decimal, missing digits after a base
marker, invalid digit for the declared base, numeric overflow, and an
input that does not begin like an integer literal. -/
inductive NumError : Type where
| leadingZero : NumError
| missingDigits : NumError
| invalidDigit : NumError
| overflow : NumError
| invalidStart : NumError
deriving DecidableEq

/-- Error kinds of identifier scanning. -/
inductive IdentError : Type where
| empty : IdentError
| badStart : IdentError
| badChar : IdentError
deriving DecidableEq

/-- Decimal-digit test on a character, by code point (48–57). -/
def isDigitChar (c : Char) : Bool :=
decide (48 ≤ c.toNat ∧ c.toNat ≤ 57)

/-- Identifier head class from the spec pattern: `A`–`Z`, `a`–`z`, `_`. -/
def isIdentStartChar (c : Char) : Bool :=
decide ((65 ≤ c.toNat ∧ c.toNat ≤ 90) ∨ (97 ≤ c.toNat ∧ c.toNat ≤ 122) ∨ c.toNat = 95)

/-- Identifier continuation class: head class plus decimal digits. -/
def isIdentContChar (c : Char) : Bool :=
isIdentStartChar c || isDigitChar c

/-- Value of a character as a hexadecimal digit, if it is one
( `0`–`9`, `a`–`f`, `A`–`F`; digits case-insensitive). -/
def hexVal? (c : Char) : Option Nat :=
if 48 ≤ c.toNat ∧ c.toNat ≤ 57 then some (c.toNat - 48)
else if 97 ≤ c.toNat ∧ c.toNat ≤ 102 then some (c.toNat - 87)
else if 65 ≤ c.toNat ∧ c.toNat ≤ 70 then some (c.toNat - 55)
else none

/-- Value of a character as a digit of base `b` (a digit valid for a larger
base but not for `b` is rejected, per spec section 7: invalid digit for the
declared base). -/
def digitVal? (b : Nat) (c : Char) : Option Nat :=
match hexVal? c with
| some d => if d < b then some d else none
| none => none

/-- Modelled from the spec (section 4.1.1): fold a run of digits of base
`b` into a value, left to right, rejecting any character that is not a
digit of the declared base. -/
def scanDigits (b : Nat) : List Char → Nat → Except NumError Nat
| [], acc => Except.ok acc
| c :: cs, acc =>
  match digitVal? b c with
  | some d => scanDigits b cs (acc * b + d)
  | none => Except.error NumError.invalidDigit

/-- Modelled from the spec (section 4.1.1): integer-literal scanning over
the character list of the input, without the overflow bound.  The lalrpop
grammar file defining `skylark::IntParser` is missing from the source
tree; this follows the spec algorithm: a leading `0` is either the sole
character (value 0), or followed by an `o`/`O` or `x`/`X` base marker with
at least one digit of that base, or followed by further characters that
must then all be `0` (value 0) — a `0` followed by a run of decimal digits
not all zero is a leading-zero error; a nonzero leading digit starts a
plain decimal literal. -/
def parseIntNatAux : List Char → Except NumError Nat
| [] => Except.error NumError.invalidStart
| c :: rest =>
  if c = '0' then
    match rest with
    | [] => Except.ok 0
    | p :: ds =>
      if p = 'o' ∨ p = 'O' then
        (if ds = [] then Except.error NumError.missingDigits else scanDigits 8 ds 0)
      else if p = 'x' ∨ p = 'X' then
        (if ds = [] then Except.error NumError.missingDigits else scanDigits 16 ds 0)
      else if (p :: ds).all (fun d => d == '0') then Except.ok 0
      else if (p :: ds).all isDigitChar then Except.error NumError.leadingZero
      else Except.error NumError.invalidDigit
  else if isDigitChar c then scanDigits 10 (c :: rest) 0
  else Except.error NumError.invalidStart

/-- Integer-literal scanning of a whole input string, unbounded value. -/
def parseIntNat (s : String) : Except NumError Nat :=
parseIntNatAux s.data

/-- Largest value representable in the signed 32-bit range for a
(nonnegative) literal. -/
def i32Max : Nat := 2147483647

/-- Modelled from the spec: full integer-literal parsing as performed by
`skylark::IntParser::new().parse(..)` (the generated parser is missing
from the source tree).  A scanned value beyond the signed 32-bit range is
a distinct overflow error, per spec sections 4.1.1 and 7. -/
def parseInt (s : String) : Except NumError Nat :=
match parseIntNat s with
| Except.ok n => if n ≤ i32Max then Except.ok n else Except.error NumError.overflow
| Except.error e => Except.error e

/-- Modelled from the spec (section 4.1.2): identifier parsing as performed
by `skylark::IdentifierParser::new().parse(..)` (the generated parser is
missing from the source tree).  Accepts a letter or underscore followed by
any run of letters, digits and underscores. -/
def parseIdent (s : String) : Except IdentError String :=
match s.data with
| [] => Except.error IdentError.empty
| c :: rest =>
  if isIdentStartChar c then
    (if rest.all isIdentContChar then Except.ok s else Except.error IdentError.badChar)
  else Except.error IdentError.badStart

/-- Follows the claim words (a second definition, for comparison with the
modelled scanner): membership in the regular language
`[A-Za-z_][A-Za-z0-9_]*`, stated directly over code points. -/
def matchesIdentPattern (s : String) : Bool :=
match s.data with
| [] => false
| c :: rest =>
  decide ((65 ≤ c.toNat ∧ c.toNat ≤ 90) ∨ (97 ≤ c.toNat ∧ c.toNat ≤ 122) ∨ c.toNat = 95) &&
  rest.all (fun d =>
    decide ((65 ≤ d.toNat ∧ d.toNat ≤ 90) ∨ (97 ≤ d.toNat ∧ d.toNat ≤ 122) ∨
      d.toNat = 95 ∨ (48 ≤ d.toNat ∧ d.toNat ≤ 57)))

/-- Success test on an `Except` result. -/
def isOkE {ε α : Type} : Except ε α → Bool
| Except.ok _ => true
| Except.error _ => false

/-- Modelled from the spec: the generated `skylark::IntParser` handle.  It
is stateless (spec section 5: no shared mutable state), so the type has no
fields. -/
structure IntParser where

/-- Fresh parser instance, as `IntParser::new()`. -/
def IntParser.new : IntParser := ⟨⟩

/-- Parsing with an `IntParser` instance is a pure function of the text. -/
def IntParser.parse (_p : IntParser) (s : String) : Except NumError Nat :=
parseInt s

/-- Modelled from the spec: the generated `skylark::IdentifierParser`
handle; stateless like `IntParser`. -/
structure IdentifierParser where

/-- Fresh parser instance, as `IdentifierParser::new()`. -/
def IdentifierParser.new : IdentifierParser := ⟨⟩

/-- Parsing with an `IdentifierParser` instance is a pure function of the
text. -/
def IdentifierParser.parse (_p : IdentifierParser) (s : String) : Except IdentError String :=
parseIdent s

/-- Character of a digit value (0–9 to `0`–`9`, 10–15 to `a`–`f`). -/
def digitChar (d : Nat) : Char :=
if d < 10 then Char.ofNat (48 + d) else Char.ofNat (87 + d)

/-- Digit characters of `n` in base `b`, most significant first, with a
single `0` for `n = 0`. -/
def digitsBody (b n : Nat) : List Char :=
if n = 0 then ['0'] else ((Nat.digits b n).reverse).map digitChar

/-- Re-encode a value in base `b` as an integer-literal string: octal and
hexadecimal values get their `0o` / `0x` marker, anything else is written
as a plain decimal literal. -/
def reencode (b n : Nat) : String :=
if b = 8 then String.mk ('0' :: 'o' :: digitsBody 8 n)
else if b = 16 then String.mk ('0' :: 'x' :: digitsBody 16 n)
else String.mk (digitsBody 10 n)

/-- Base declared by the first characters of an integer literal: `0o`/`0O`
is octal, `0x`/`0X` is hexadecimal, anything else is decimal. -/
def baseOf (s : String) : Nat :=
match s.data with
| '0' :: c :: _ =>
  if c = 'o' ∨ c = 'O' then 8 else if c = 'x' ∨ c = 'X' then 16 else 10
| _ => 10

/-- Upcase a lowercase hexadecimal letter digit ( `a`–`f` to `A`–`F`),
leaving every other character unchanged; used to state that hexadecimal
digits are scanned case-insensitively. -/
def hexUpcase (c : Char) : Char :=
if 97 ≤ c.toNat ∧ c.toNat ≤ 102 then Char.ofNat (c.toNat - 32) else c

/-- A successful scan below the overflow bound is returned unchanged. -/
theorem parseInt_ok_of {s : String} {n : Nat} (h : parseIntNat s = Except.ok n)
    (hle : n ≤ i32Max) : parseInt s = Except.ok n := by
  unfold parseInt
  rw [h]
  show (if n ≤ i32Max then Except.ok n else Except.error NumError.overflow) = Except.ok n
  rw [if_pos hle]

/-- A failed scan propagates its error through `parseInt`. -/
theorem parseInt_err_of {s : String} {e : NumError} (h : parseIntNat s = Except.error e) :
    parseInt s = Except.error e := by
  unfold parseInt
  rw [h]

/-- Every successfully parsed literal value is below the overflow bound. -/
theorem le_i32Max_of_parseInt_ok {s : String} {n : Nat} (h : parseInt s = Except.ok n) :
    n ≤ i32Max := by
  unfold parseInt at h
  cases hp : parseIntNat s with
  | error e => rw [hp] at h; simp at h
  | ok m =>
    rw [hp] at h
    have h2 : (if m ≤ i32Max then Except.ok m else Except.error NumError.overflow) =
        Except.ok n := h
    by_cases hm : m ≤ i32Max
    · rw [if_pos hm] at h2
      injection h2 with h2
      omega
    · rw [if_neg hm] at h2
      simp at h2

/-- Folding digits most-significant-first computes the base-`b` value of
the reversed (least-significant-first) digit list. -/
theorem foldl_mul_add_eq (b : Nat) : ∀ (L : List Nat) (acc : Nat),
    L.foldl (fun a d => a * b + d) acc = acc * b ^ L.length + Nat.ofDigits b L.reverse := by
  intro L
  induction L with
  | nil => intro acc; simp [Nat.ofDigits_nil]
  | cons d T ih =>
    intro acc
    simp only [List.foldl_cons, List.reverse_cons, List.length_cons, List.length_reverse, ih,
      Nat.ofDigits_append, Nat.ofDigits_singleton]
    ring

/-- Digit characters are read back as the digit value they encode. -/
theorem hexVal?_digitChar {d : Nat} (hd : d < 16) : hexVal? (digitChar d) = some d := by
  interval_cases d <;> rfl

/-- Digit characters of digits valid for base `b` are read back by the
base-`b` digit reader. -/
theorem digitVal?_digitChar {b d : Nat} (hb : b ≤ 16) (hd : d < b) :
    digitVal? b (digitChar d) = some d := by
  unfold digitVal?
  rw [hexVal?_digitChar (lt_of_lt_of_le hd hb)]
  simp [hd]

/-- Scanning the characters of a valid digit list folds up its value. -/
theorem scanDigits_map {b : Nat} (hb : b ≤ 16) : ∀ (L : List Nat) (acc : Nat),
    (∀ d ∈ L, d < b) →
    scanDigits b (L.map digitChar) acc = Except.ok (L.foldl (fun a d => a * b + d) acc) := by
  intro L
  induction L with
  | nil => intro acc _; rfl
  | cons d T ih =>
    intro acc h
    have hd : d < b := h d (List.mem_cons_self d T)
    have hT : ∀ x ∈ T, x < b := fun x hx => h x (List.mem_cons_of_mem d hx)
    show scanDigits b (digitChar d :: T.map digitChar) acc = _
    simp only [scanDigits, digitVal?_digitChar hb hd, List.foldl_cons]
    exact ih (acc * b + d) hT

/-- Scanning the rendered digits of `n` in base `b` recovers `n`. -/
theorem scanDigits_digits (b n : Nat) (h2 : 1 < b) (h16 : b ≤ 16) :
    scanDigits b (((Nat.digits b n).reverse).map digitChar) 0 = Except.ok n := by
  have hmem : ∀ d ∈ (Nat.digits b n).reverse, d < b :=
    fun d hd => Nat.digits_lt_base h2 (List.mem_reverse.mp hd)
  rw [scanDigits_map h16 _ 0 hmem, foldl_mul_add_eq]
  simp [List.reverse_reverse, Nat.ofDigits_digits]

/-- Scanning a rendered digit body recovers the value, including `n = 0`. -/
theorem scanDigits_body (b n : Nat) (h2 : 1 < b) (h16 : b ≤ 16) :
    scanDigits b (digitsBody b n) 0 = Except.ok n := by
  unfold digitsBody
  by_cases hn : n = 0
  · subst hn
    rw [if_pos rfl]
    have h0 : hexVal? '0' = some 0 := rfl
    simp only [scanDigits, digitVal?, h0]
    rw [if_pos (show 0 < b by omega)]
    simp [scanDigits]
  · rw [if_neg hn]
    exact scanDigits_digits b n h2 h16

/-- A rendered digit body is never empty. -/
theorem digitsBody_ne_nil (b n : Nat) : digitsBody b n ≠ [] := by
  unfold digitsBody
  by_cases hn : n = 0
  · simp [hn]
  · rw [if_neg hn]
    simpa [List.map_eq_nil_iff, List.reverse_eq_nil_iff, Nat.digits_ne_nil_iff_ne_zero] using hn

/-- Branch behaviour of the scanner after a `0o` marker. -/
theorem parseIntNatAux_oct (ds : List Char) :
    parseIntNatAux ('0' :: 'o' :: ds) =
      (if ds = [] then Except.error NumError.missingDigits else scanDigits 8 ds 0) := rfl

/-- Branch behaviour of the scanner after a `0O` marker. -/
theorem parseIntNatAux_octU (ds : List Char) :
    parseIntNatAux ('0' :: 'O' :: ds) =
      (if ds = [] then Except.error NumError.missingDigits else scanDigits 8 ds 0) := rfl

/-- Branch behaviour of the scanner after a `0x` marker. -/
theorem parseIntNatAux_hex (ds : List Char) :
    parseIntNatAux ('0' :: 'x' :: ds) =
      (if ds = [] then Except.error NumError.missingDigits else scanDigits 16 ds 0) := rfl

/-- Branch behaviour of the scanner after a `0X` marker. -/
theorem parseIntNatAux_hexU (ds : List Char) :
    parseIntNatAux ('0' :: 'X' :: ds) =
      (if ds = [] then Except.error NumError.missingDigits else scanDigits 16 ds 0) := rfl

/-- Branch behaviour of the scanner on a nonzero leading digit. -/
theorem parseIntNatAux_dec {c : Char} (hc : ¬ c = '0') (hd : isDigitChar c = true)
    (rest : List Char) : parseIntNatAux (c :: rest) = scanDigits 10 (c :: rest) 0 := by
  simp only [parseIntNatAux]
  rw [if_neg hc, if_pos hd]

/-- Branch behaviour of the scanner on a leading zero followed by a run of
zeros: the value is `0`. -/
theorem parseIntNatAux_zeroRun (p : Char) (ds : List Char)
    (hall : ((p :: ds).all (fun d => d == '0')) = true) :
    parseIntNatAux ('0' :: p :: ds) = Except.ok 0 := by
  have hp : p = '0' := by
    have h := List.all_eq_true.mp hall p (List.mem_cons_self p ds)
    simpa using h
  subst hp
  show (if ('0' : Char) = 'o' ∨ ('0' : Char) = 'O' then
          (if ds = [] then Except.error NumError.missingDigits else scanDigits 8 ds 0)
        else if ('0' : Char) = 'x' ∨ ('0' : Char) = 'X' then
          (if ds = [] then Except.error NumError.missingDigits else scanDigits 16 ds 0)
        else if ('0' :: ds).all (fun d => d == '0') then Except.ok 0
        else if ('0' :: ds).all isDigitChar then Except.error NumError.leadingZero
        else Except.error NumError.invalidDigit) = Except.ok 0
  rw [if_neg (by decide), if_neg (by decide), if_pos hall]

/-- Branch behaviour of the scanner on a leading zero followed by decimal
digits that are not all zero: the leading-zero error. -/
theorem parseIntNatAux_leadZero (p : Char) (ds : List Char)
    (hall : ((p :: ds).all isDigitChar) = true)
    (hnz : ((p :: ds).all (fun d => d == '0')) = false) :
    parseIntNatAux ('0' :: p :: ds) = Except.error NumError.leadingZero := by
  have hp : isDigitChar p = true := List.all_eq_true.mp hall p (List.mem_cons_self p ds)
  have ho : ¬ (p = 'o' ∨ p = 'O') := by
    rintro (rfl | rfl) <;> exact absurd hp (by decide)
  have hx : ¬ (p = 'x' ∨ p = 'X') := by
    rintro (rfl | rfl) <;> exact absurd hp (by decide)
  show (if p = 'o' ∨ p = 'O' then
          (if ds = [] then Except.error NumError.missingDigits else scanDigits 8 ds 0)
        else if p = 'x' ∨ p = 'X' then
          (if ds = [] then Except.error NumError.missingDigits else scanDigits 16 ds 0)
        else if (p :: ds).all (fun d => d == '0') then Except.ok 0
        else if (p :: ds).all isDigitChar then Except.error NumError.leadingZero
        else Except.error NumError.invalidDigit) = Except.error NumError.leadingZero
  rw [if_neg ho, if_neg hx, if_neg (by simp [hnz]), if_pos hall]

/-- Re-parsing an octal rendering recovers the value. -/
theorem parseIntNat_octString (n : Nat) :
    parseIntNat (String.mk ('0' :: 'o' :: digitsBody 8 n)) = Except.ok n := by
  show parseIntNatAux ('0' :: 'o' :: digitsBody 8 n) = Except.ok n
  rw [parseIntNatAux_oct, if_neg (digitsBody_ne_nil 8 n)]
  exact scanDigits_body 8 n (by norm_num) (by norm_num)

/-- Re-parsing a hexadecimal rendering recovers the value. -/
theorem parseIntNat_hexString (n : Nat) :
    parseIntNat (String.mk ('0' :: 'x' :: digitsBody 16 n)) = Except.ok n := by
  show parseIntNatAux ('0' :: 'x' :: digitsBody 16 n) = Except.ok n
  rw [parseIntNatAux_hex, if_neg (digitsBody_ne_nil 16 n)]
  exact scanDigits_body 16 n (by norm_num) (by norm_num)

/-- Digit characters of decimal digits are decimal-digit characters. -/
theorem isDigitChar_digitChar {d : Nat} (hd : d < 10) : isDigitChar (digitChar d) = true := by
  interval_cases d <;> rfl

/-- The digit character of a nonzero digit is not the character `0`. -/
theorem digitChar_ne_zero {d : Nat} (hd : d < 16) (hnz : d ≠ 0) : ¬ digitChar d = '0' := by
  interval_cases d
  · exact absurd rfl hnz
  all_goals decide

/-- Re-parsing a decimal rendering recovers the value. -/
theorem parseIntNat_decString (n : Nat) :
    parseIntNat (String.mk (digitsBody 10 n)) = Except.ok n := by
  by_cases hn : n = 0
  · subst hn
    rfl
  · have hne : Nat.digits 10 n ≠ [] := Nat.digits_ne_nil_iff_ne_zero.mpr hn
    have hrevne : (Nat.digits 10 n).reverse ≠ [] := by
      simpa [List.reverse_eq_nil_iff] using hne
    obtain ⟨d0, tl, hrev⟩ := List.exists_cons_of_ne_nil hrevne
    have hd0mem : d0 ∈ Nat.digits 10 n := by
      rw [← List.mem_reverse, hrev]
      exact List.mem_cons_self d0 tl
    have hd0lt : d0 < 10 := Nat.digits_lt_base (by norm_num) hd0mem
    have hd0 : d0 ≠ 0 := by
      have hlastq : (Nat.digits 10 n).getLast? = some d0 := by
        rw [← List.head?_reverse, hrev]
        rfl
      rw [List.getLast?_eq_getLast _ hne] at hlastq
      injection hlastq with hlastq
      rw [← hlastq]
      exact Nat.getLast_digit_ne_zero 10 hn
    have hbody : digitsBody 10 n = digitChar d0 :: tl.map digitChar := by
      unfold digitsBody
      rw [if_neg hn, hrev, List.map_cons]
    show parseIntNatAux (digitsBody 10 n) = Except.ok n
    rw [hbody, parseIntNatAux_dec (digitChar_ne_zero (by omega) hd0) (isDigitChar_digitChar hd0lt),
      ← List.map_cons, ← hrev]
    exact scanDigits_digits 10 n (by norm_num) (by norm_num)

/-- Re-parsing a rendering in any declared base recovers any value below
the overflow bound. -/
theorem parseInt_reencode (b n : Nat) (hle : n ≤ i32Max) :
    parseInt (reencode b n) = Except.ok n := by
  unfold reencode
  by_cases h8 : b = 8
  · rw [if_pos h8]
    exact parseInt_ok_of (parseIntNat_octString n) hle
  · rw [if_neg h8]
    by_cases h16 : b = 16
    · rw [if_pos h16]
      exact parseInt_ok_of (parseIntNat_hexString n) hle
    · rw [if_neg h16]
      exact parseInt_ok_of (parseIntNat_decString n) hle

/-- Pointwise, the scanner's continuation class agrees with the claim's
character class `[A-Za-z0-9_]`. -/
theorem ident_cont_pointwise (d : Char) :
    isIdentContChar d =
      decide ((65 ≤ d.toNat ∧ d.toNat ≤ 90) ∨ (97 ≤ d.toNat ∧ d.toNat ≤ 122) ∨
        d.toNat = 95 ∨ (48 ≤ d.toNat ∧ d.toNat ≤ 57)) := by
  unfold isIdentContChar isIdentStartChar isDigitChar
  rw [← Bool.decide_or]
  exact decide_eq_decide.mpr (by tauto)

/-- The claim's pattern check, restated through the scanner's classes. -/
theorem matchesIdentPattern_eq (s : String) :
    matchesIdentPattern s = (match s.data with
      | [] => false
      | c :: rest => isIdentStartChar c && rest.all isIdentContChar) := by
  unfold matchesIdentPattern
  cases s.data with
  | nil => rfl
  | cons c rest =>
    show (decide ((65 ≤ c.toNat ∧ c.toNat ≤ 90) ∨ (97 ≤ c.toNat ∧ c.toNat ≤ 122) ∨
        c.toNat = 95) &&
      rest.all (fun d => decide ((65 ≤ d.toNat ∧ d.toNat ≤ 90) ∨
        (97 ≤ d.toNat ∧ d.toNat ≤ 122) ∨ d.toNat = 95 ∨ (48 ≤ d.toNat ∧ d.toNat ≤ 57)))) =
      (isIdentStartChar c && rest.all isIdentContChar)
    rw [show (fun d => decide ((65 ≤ d.toNat ∧ d.toNat ≤ 90) ∨
        (97 ≤ d.toNat ∧ d.toNat ≤ 122) ∨ d.toNat = 95 ∨ (48 ≤ d.toNat ∧ d.toNat ≤ 57))) =
        isIdentContChar from funext fun d => (ident_cont_pointwise d).symm]
    rfl

/-- A digit character is not an identifier start character. -/
theorem digit_not_ident_start {c : Char} (h : isDigitChar c = true) :
    isIdentStartChar c = false := by
  simp only [isDigitChar, decide_eq_true_eq] at h
  simp only [isIdentStartChar, decide_eq_false_iff_not]
  omega

/-- Identifier scanning of an input with a known character list. -/
theorem parseIdent_data_cons (s : String) (c : Char) (rest : List Char)
    (h : s.data = c :: rest) :
    parseIdent s = (if isIdentStartChar c then
      (if rest.all isIdentContChar then Except.ok s else Except.error IdentError.badChar)
    else Except.error IdentError.badStart) := by
  unfold parseIdent
  rw [h]

/-- Claim C1: every input consisting solely of the character `0` repeated
one or more times parses successfully as the integer value `0`, even
though a `0` followed by a nonzero decimal digit is a (leading-zero)
error. -/
theorem zero_runs_parse_to_zero :
    (∀ s : String, s.data ≠ [] → (∀ c ∈ s.data, c = '0') → parseInt s = Except.ok 0)
    ∧ (∀ c : Char, isDigitChar c = true → c ≠ '0' →
        parseInt (String.mk ['0', c]) = Except.error NumError.leadingZero) := by
  constructor
  · intro s hne hall
    obtain ⟨c, rest, hdata⟩ := List.exists_cons_of_ne_nil hne
    have hc : c = '0' := hall c (by rw [hdata]; exact List.mem_cons_self c rest)
    subst hc
    have hstep : parseIntNat s = parseIntNatAux ('0' :: rest) := by
      unfold parseIntNat
      rw [hdata]
    cases rest with
    | nil =>
      have h0 : parseIntNat s = Except.ok 0 := by rw [hstep]; rfl
      exact parseInt_ok_of h0 (Nat.zero_le _)
    | cons p ds =>
      have hallB : ((p :: ds).all (fun d => d == '0')) = true := by
        apply List.all_eq_true.mpr
        intro d hd
        have hd0 : d = '0' := hall d (by rw [hdata]; exact List.mem_cons_of_mem _ hd)
        simp [hd0]
      have h0 : parseIntNat s = Except.ok 0 := by
        rw [hstep]
        exact parseIntNatAux_zeroRun p ds hallB
      exact parseInt_ok_of h0 (Nat.zero_le _)
  · intro c hdig hne0
    have hall : (([c]).all isDigitChar) = true := by simp [hdig]
    have hnz : (([c]).all (fun d => d == '0')) = false := by
      simp only [List.all_cons, List.all_nil, Bool.and_true]
      exact beq_eq_false_iff_ne.mpr hne0
    have hp : parseIntNat (String.mk ['0', c]) = Except.error NumError.leadingZero := by
      show parseIntNatAux ['0', c] = Except.error NumError.leadingZero
      exact parseIntNatAux_leadZero c [] hall hnz
    exact parseInt_err_of hp

/-- Witness for C1: the all-zero input `00000` parses to `0`, and `01` is
a leading-zero error. -/
theorem zero_runs_parse_to_zero_w :
    parseInt "00000" = Except.ok 0
    ∧ parseInt (String.mk ['0', '1']) = Except.error NumError.leadingZero :=
  ⟨zero_runs_parse_to_zero.1 "00000" (by decide) (by decide),
   zero_runs_parse_to_zero.2 '1' (by decide) (by decide)⟩

/-- Claim C2 (evaluated at the failing shape): the source `Test::IfExpr`
node stores exactly two sub-values, its `cond` and `alt` fields, both of
type `Test`; it has no third field for the antecedent expression of the
ternary, contrary to the claim that it composes three sub-expressions.
The spec itself (section 9) flags this two-field shape as incomplete. -/
theorem ifExpr_two_fields :
    (∀ c a : Test, Test.components (Test.IfExpr c a) = [c, a])
    ∧ (Test.components (Test.IfExpr Test.Nil Test.Nil)).length = 2
    ∧ ¬ (Test.components (Test.IfExpr Test.Nil Test.Nil)).length = 3 :=
  ⟨fun _ _ => rfl, rfl, by decide⟩

/-- Claim C3 counterexample: two slice expressions with distinct first
bounds compose to identical `Slice` nodes, and two calls with distinct
argument lists compose to identical `Call` nodes, so neither bounds nor
arguments are recoverable from the nodes. -/
theorem slice_call_drop_data :
    ¬ Expr.Int 1 = Expr.Int 2
    ∧ mkSlice (some (Expr.Int 1)) none none = mkSlice (some (Expr.Int 2)) none none
    ∧ mkCall [Expr.Int 1] = mkCall [] := by
  refine ⟨?_, rfl, rfl⟩
  intro h
  injection h with h
  exact absurd h (by decide)

/-- Claim C3 as amended: the source `Slice` and `Call` types are
field-less placeholders, so any two `Slice` values are equal and any two
`Call` values are equal — the nodes carry no bounds and no arguments. -/
theorem slice_call_carry_nothing :
    (∀ s1 s2 : Slice, s1 = s2) ∧ (∀ k1 k2 : Call, k1 = k2) :=
  ⟨fun s1 s2 => by cases s1; cases s2; rfl,
   fun k1 k2 => by cases k1; cases k2; rfl⟩

/-- Claim C4 counterexample: the input `00` is a `0` followed by another
decimal digit (the digit `0`), yet integer parsing accepts it with value
`0` instead of rejecting it. -/
theorem double_zero_accepted :
    parseInt "00" = Except.ok 0 ∧ isDigitChar '0' = true := ⟨rfl, rfl⟩

/-- Claim C4 as amended: decimal parsing rejects every literal in which a
leading `0` is followed by decimal digits that are not all `0` (so `01`
is an error), while `8` parses to 8 and `10` parses to 10. -/
theorem decimal_literals :
    parseInt "8" = Except.ok 8 ∧ parseInt "10" = Except.ok 10
    ∧ parseInt "01" = Except.error NumError.leadingZero
    ∧ (∀ s : String, ∀ p : Char, ∀ ds : List Char, s.data = '0' :: p :: ds →
        ((p :: ds).all isDigitChar) = true → ((p :: ds).all (fun d => d == '0')) = false →
        parseInt s = Except.error NumError.leadingZero) := by
  refine ⟨rfl, rfl, rfl, ?_⟩
  intro s p ds hdata hall hnz
  apply parseInt_err_of
  show parseIntNatAux s.data = Except.error NumError.leadingZero
  rw [hdata]
  exact parseIntNatAux_leadZero p ds hall hnz

/-- Witness for C4 (amended): `012` is rejected as a leading-zero
decimal. -/
theorem decimal_literals_w : parseInt "012" = Except.error NumError.leadingZero :=
  decimal_literals.2.2.2 "012" '1' ['2'] rfl (by decide) (by decide)

/-- Characters with equal code points are equal. -/
theorem char_eq_of_toNat_eq {c d : Char} (h : c.toNat = d.toNat) : c = d :=
  Char.ext (UInt32.ext h)

/-- The hexadecimal digit reader is case-insensitive: a digit character
and its upcased form carry the same digit value. -/
theorem hexVal?_hexUpcase (c : Char) : hexVal? (hexUpcase c) = hexVal? c := by
  unfold hexUpcase
  by_cases h : 97 ≤ c.toNat ∧ c.toNat ≤ 102
  · rw [if_pos h]
    have h6 : c.toNat = 97 ∨ c.toNat = 98 ∨ c.toNat = 99 ∨ c.toNat = 100 ∨ c.toNat = 101 ∨
        c.toNat = 102 := by omega
    rcases h6 with h1 | h1 | h1 | h1 | h1 | h1
    · have hc : c = 'a' := char_eq_of_toNat_eq h1
      rw [hc]
      rfl
    · have hc : c = 'b' := char_eq_of_toNat_eq h1
      rw [hc]
      rfl
    · have hc : c = 'c' := char_eq_of_toNat_eq h1
      rw [hc]
      rfl
    · have hc : c = 'd' := char_eq_of_toNat_eq h1
      rw [hc]
      rfl
    · have hc : c = 'e' := char_eq_of_toNat_eq h1
      rw [hc]
      rfl
    · have hc : c = 'f' := char_eq_of_toNat_eq h1
      rw [hc]
      rfl
  · rw [if_neg h]

/-- Scanning a hexadecimal digit run is invariant under upcasing its
letter digits. -/
theorem scanDigits_hexUpcase : ∀ (ds : List Char) (acc : Nat),
    scanDigits 16 (ds.map hexUpcase) acc = scanDigits 16 ds acc := by
  intro ds
  induction ds with
  | nil => intro acc; rfl
  | cons c cs ih =>
    intro acc
    have hd : digitVal? 16 (hexUpcase c) = digitVal? 16 c := by
      unfold digitVal?
      rw [hexVal?_hexUpcase]
    show scanDigits 16 (hexUpcase c :: cs.map hexUpcase) acc = scanDigits 16 (c :: cs) acc
    simp only [scanDigits, hd]
    cases digitVal? 16 c with
    | none => rfl
    | some d => exact ih (acc * 16 + d)

/-- Claim C5: octal and hexadecimal literals parse to the value of their
digits in the declared base, with a case-insensitive base marker and, for
hexadecimal, case-insensitive digits: the six concrete examples of the
test suite, the same hexadecimal examples with uppercase and mixed-case
digits, marker case-insensitivity for every digit tail, and digit
case-insensitivity (upcasing the digit tail never changes the result). -/
theorem base_marked_literals :
    parseInt "0o7" = Except.ok 7 ∧ parseInt "0O7" = Except.ok 7
    ∧ parseInt "0O777" = Except.ok 511
    ∧ parseInt "0x7" = Except.ok 7 ∧ parseInt "0X7" = Except.ok 7
    ∧ parseInt "0xffe" = Except.ok 4094
    ∧ parseInt "0xFFE" = Except.ok 4094
    ∧ parseInt "0XfFe" = Except.ok 4094
    ∧ (∀ ds : List Char,
        parseInt (String.mk ('0' :: 'o' :: ds)) = parseInt (String.mk ('0' :: 'O' :: ds)))
    ∧ (∀ ds : List Char,
        parseInt (String.mk ('0' :: 'x' :: ds)) = parseInt (String.mk ('0' :: 'X' :: ds)))
    ∧ (∀ ds : List Char,
        parseInt (String.mk ('0' :: 'x' :: ds.map hexUpcase)) =
          parseInt (String.mk ('0' :: 'x' :: ds))) := by
  refine ⟨rfl, rfl, rfl, rfl, rfl, rfl, rfl, rfl, ?_, ?_, ?_⟩
  · intro ds
    have h : parseIntNat (String.mk ('0' :: 'o' :: ds)) =
        parseIntNat (String.mk ('0' :: 'O' :: ds)) := by
      show parseIntNatAux ('0' :: 'o' :: ds) = parseIntNatAux ('0' :: 'O' :: ds)
      rw [parseIntNatAux_oct, parseIntNatAux_octU]
    unfold parseInt
    rw [h]
  · intro ds
    have h : parseIntNat (String.mk ('0' :: 'x' :: ds)) =
        parseIntNat (String.mk ('0' :: 'X' :: ds)) := by
      show parseIntNatAux ('0' :: 'x' :: ds) = parseIntNatAux ('0' :: 'X' :: ds)
      rw [parseIntNatAux_hex, parseIntNatAux_hexU]
    unfold parseInt
    rw [h]
  · intro ds
    have h : parseIntNat (String.mk ('0' :: 'x' :: ds.map hexUpcase)) =
        parseIntNat (String.mk ('0' :: 'x' :: ds)) := by
      show parseIntNatAux ('0' :: 'x' :: ds.map hexUpcase) = parseIntNatAux ('0' :: 'x' :: ds)
      rw [parseIntNatAux_hex, parseIntNatAux_hex]
      by_cases hds : ds = []
      · subst hds
        rfl
      · rw [if_neg (by simpa [List.map_eq_nil_iff] using hds), if_neg hds]
        exact scanDigits_hexUpcase ds 0
    unfold parseInt
    rw [h]

/-- Claim C6: identifier parsing accepts exactly the strings of the
language `[A-Za-z_][A-Za-z0-9_]*`: the five concrete identifiers of the
test suite are accepted, `0x7` is rejected, and every input whose first
character is a decimal digit is rejected. -/
theorem identifier_regex :
    (∀ s : String, isOkE (parseIdent s) = matchesIdentPattern s)
    ∧ isOkE (parseIdent "foo") = true
    ∧ isOkE (parseIdent "_foo") = true
    ∧ isOkE (parseIdent "__foo") = true
    ∧ isOkE (parseIdent "Foo") = true
    ∧ isOkE (parseIdent "F0ooBar") = true
    ∧ isOkE (parseIdent "0x7") = false
    ∧ (∀ s : String, ∀ c : Char, ∀ rest : List Char,
        s.data = c :: rest → isDigitChar c = true → isOkE (parseIdent s) = false) := by
  refine ⟨?_, rfl, rfl, rfl, rfl, rfl, rfl, ?_⟩
  · intro s
    rw [matchesIdentPattern_eq]
    unfold parseIdent
    cases s.data with
    | nil => rfl
    | cons c rest =>
      show isOkE (if isIdentStartChar c then
          (if rest.all isIdentContChar then Except.ok s else Except.error IdentError.badChar)
        else Except.error IdentError.badStart) =
        (isIdentStartChar c && rest.all isIdentContChar)
      by_cases h1 : isIdentStartChar c = true
      · rw [if_pos h1, h1, Bool.true_and]
        by_cases h2 : rest.all isIdentContChar = true
        · rw [if_pos h2, h2]
          rfl
        · have h2f : rest.all isIdentContChar = false := by
            cases hB : rest.all isIdentContChar
            · rfl
            · exact absurd hB h2
          rw [if_neg h2, h2f]
          rfl
      · have h1f : isIdentStartChar c = false := by
          cases hB : isIdentStartChar c
          · rfl
          · exact absurd hB h1
        rw [if_neg h1, h1f, Bool.false_and]
        rfl
  · intro s c rest hdata hdig
    rw [parseIdent_data_cons s c rest hdata,
      if_neg (by simp [digit_not_ident_start hdig])]
    rfl

/-- Witness for C6: `0x7` starts with the digit `0` and is rejected as an
identifier. -/
theorem identifier_regex_w : isOkE (parseIdent "0x7") = false :=
  identifier_regex.2.2.2.2.2.2.2 "0x7" '0' ['x', '7'] rfl rfl

/-- Claim C7: the bound `i32Max` is the top of the signed 32-bit range;
every successfully parsed literal value lies within it; a scanned value
beyond it yields the distinct overflow error kind, which differs from
every other numeric error kind. -/
theorem int_literal_overflow :
    i32Max = 2 ^ 31 - 1
    ∧ (∀ s : String, ∀ n : Nat, parseInt s = Except.ok n → n ≤ i32Max)
    ∧ (∀ s : String, ∀ m : Nat, parseIntNat s = Except.ok m → i32Max < m →
        parseInt s = Except.error NumError.overflow)
    ∧ NumError.overflow ≠ NumError.leadingZero
    ∧ NumError.overflow ≠ NumError.missingDigits
    ∧ NumError.overflow ≠ NumError.invalidDigit
    ∧ NumError.overflow ≠ NumError.invalidStart := by
  refine ⟨by norm_num [i32Max], fun s n h => le_i32Max_of_parseInt_ok h, ?_,
    by decide, by decide, by decide, by decide⟩
  intro s m hm hlt
  unfold parseInt
  rw [hm]
  show (if m ≤ i32Max then Except.ok m else Except.error NumError.overflow) =
    Except.error NumError.overflow
  rw [if_neg (by omega)]

/-- Witness for C7: `0x80000000` scans to 2^31, which exceeds the signed
32-bit range and is reported as overflow; `10` parses within range. -/
theorem int_literal_overflow_w :
    parseInt "0x80000000" = Except.error NumError.overflow ∧ (10 : Nat) ≤ i32Max :=
  ⟨int_literal_overflow.2.2.1 "0x80000000" 2147483648 rfl (by norm_num [i32Max]),
   int_literal_overflow.2.1 "10" 10 rfl⟩

/-- Claim C8: for every integer-literal string the scanner accepts,
re-encoding the parsed value in the base declared by the literal and
re-parsing yields the identical value. -/
theorem int_round_trip : ∀ s : String, ∀ n : Nat,
    parseInt s = Except.ok n → parseInt (reencode (baseOf s) n) = Except.ok n :=
  fun _s n h => parseInt_reencode _ n (le_i32Max_of_parseInt_ok h)

/-- Witness for C8: `0xffe` parses to 4094, and re-parsing its
re-encoding in its declared base yields 4094 again. -/
theorem int_round_trip_w :
    parseInt "0xffe" = Except.ok 4094
    ∧ parseInt (reencode (baseOf "0xffe") 4094) = Except.ok 4094 :=
  ⟨rfl, int_round_trip "0xffe" 4094 rfl⟩

/-- Claim C9: parsing is deterministic and shares no state between parser
instances — any two `IntParser` instances agree on every input, and so do
any two `IdentifierParser` instances, parsing being a pure function of
the input text alone. -/
theorem parse_deterministic : ∀ (p q : IntParser) (r t : IdentifierParser) (s : String),
    IntParser.parse p s = IntParser.parse q s
    ∧ IdentifierParser.parse r s = IdentifierParser.parse t s :=
  fun _ _ _ _ _ => ⟨rfl, rfl⟩

/-- Claim C10: every `Test` value is a finite binary tree whose only leaf
form is `Nil`: each value is `Nil` or an `IfExpr` of two strictly smaller
`Test` children, and `Test` is in structure-preserving bijection with
plain binary trees, so no `Expr` (and no other payload) occurs anywhere
inside a `Test` tree. -/
theorem test_is_binary_tree :
    (∀ t : Test, t = Test.Nil ∨ ∃ c a : Test, t = Test.IfExpr c a)
    ∧ (∀ c a : Test, Test.size c < Test.size (Test.IfExpr c a)
        ∧ Test.size a < Test.size (Test.IfExpr c a))
    ∧ (∀ t : Test, Test.ofTree (Test.toTree t) = t)
    ∧ (∀ b : BinTree, Test.toTree (Test.ofTree b) = b) := by
  refine ⟨?_, ?_, ?_, ?_⟩
  · intro t
    cases t with
    | Nil => exact Or.inl rfl
    | IfExpr c a => exact Or.inr ⟨c, a, rfl⟩
  · intro c a
    refine ⟨?_, ?_⟩ <;> (simp only [Test.size]; omega)
  · intro t
    induction t with
    | Nil => rfl
    | IfExpr c a ihc iha => simp [Test.toTree, Test.ofTree, ihc, iha]
  · intro b
    induction b with
    | leaf => rfl
    | node l r ihl ihr => simp [Test.toTree, Test.ofTree, ihl, ihr]

end Skylark
